import Mathlib

/-
Verification of the dgbridge rule engine (src/lib/rules.go) against its
specification.  The Go functions ApplyRules, ApplyRule, buildTemplate and
ApplyUserTags are embedded as executable Lean definitions; the compiled
regular expressions of a rule are abstracted by the two operations rules.go
uses (MatchString, ReplaceAllString), while the two concrete package-level
regexes (ansiRegex, mentionRegex) are embedded as deterministic scanners
implementing exactly their Go ReplaceAll semantics (leftmost match,
non-overlapping, continue after the match, no rescan of replacements).
-/

/-- Author mirrors `Author` in src/lib/rules.go: Username, Nickname
(may be empty), Discriminator, AccentColor (a Go int). -/
structure Author where
  Username : String
  Nickname : String
  Discriminator : String
  AccentColor : Int

/-- Props mirrors `Props` in src/lib/rules.go: a wrapper holding the author. -/
structure Props where
  Author : Author

/-- Modelled from the spec: `ext.Regexp` (package dgbridge/src/ext, which is
not part of the sources here) wraps a platform compiled regular expression;
rules.go uses only its MatchString and ReplaceAllString operations, so a
compiled pattern is embedded as that interface. -/
structure Regexp where
  matchString : String → Bool
  replaceAllString : String → String → String

/-- Rule mirrors `Rule` in src/lib/rules.go: compiled pattern plus template. -/
structure Rule where
  Match : Regexp
  Template : String

/-- UTF-8 encoding of one character as its list of byte values (Go strings
are UTF-8 and buildTemplate's lookahead indexes the template's bytes). -/
def utf8Bytes (c : Char) : List Nat :=
  let n := c.toNat
  if n < 128 then [n]
  else if n < 2048 then [192 + n / 64, 128 + n % 64]
  else if n < 65536 then [224 + n / 4096, 128 + (n / 64) % 64, 128 + n % 64]
  else [240 + n / 262144, 128 + (n / 4096) % 64, 128 + (n / 64) % 64, 128 + n % 64]

/-- UTF-8 byte sequence of a character list. -/
def utf8Encode (l : List Char) : List Nat :=
  l.foldr (fun c acc => utf8Bytes c ++ acc) []

/-- strBytes s: the bytes of s, what Go's len(template) and template[i] see. -/
def strBytes (s : String) : List Nat :=
  utf8Encode s.data

/-- Lowercase hexadecimal digit character, the alphabet of strconv.FormatInt
with base 16. -/
def hexDigit (n : Nat) : Char :=
  if n < 10 then Char.ofNat (48 + n) else Char.ofNat (87 + n)

/-- hexAux accumulates the base-16 digits of n, most significant first; the
first argument is fuel bounding the recursion depth. -/
def hexAux : Nat → Nat → List Char → List Char
  | 0, _, acc => acc
  | _ + 1, 0, acc => acc
  | f + 1, n, acc => hexAux f (n / 16) (hexDigit (n % 16) :: acc)

/-- formatInt16 i embeds Go strconv.FormatInt(int64(i), 16): lowercase hex
digits, leading minus sign for negative values, "0" for zero. -/
def formatInt16 (i : Int) : String :=
  if i < 0 then "-" ++ String.mk (hexAux i.natAbs i.natAbs [])
  else if i = 0 then "0"
  else String.mk (hexAux i.toNat i.toNat [])

/-- Core loop of buildTemplate (src/lib/rules.go lines 148-185).  The counter
i counts runes (the Go loop iterates []rune(template)) while the one-byte
lookahead template[i+1] indexes the UTF-8 bytes, exactly as the Go code does;
94, 85, 84, 67, 78 are the bytes of the caret, U, T, C, N. -/
def btAux (bytes : List Nat) (props : Props) : Nat → List Char → List Char
  | _, [] => []
  | i, [c] =>
    if c = '^' ∧ i + 1 < bytes.length then
      if bytes.getD (i + 1) 0 = 94 then ['^']
      else if bytes.getD (i + 1) 0 = 85 then props.Author.Username.data
      else if bytes.getD (i + 1) 0 = 84 then props.Author.Discriminator.data
      else if bytes.getD (i + 1) 0 = 67 then (formatInt16 props.Author.AccentColor).data
      else if bytes.getD (i + 1) 0 = 78 then
        (if props.Author.Nickname ≠ "" then props.Author.Nickname.data
         else props.Author.Username.data)
      else [c]
    else [c]
  | i, c :: c2 :: rest =>
    if c = '^' ∧ i + 1 < bytes.length then
      if bytes.getD (i + 1) 0 = 94 then
        '^' :: btAux bytes props (i + 2) rest
      else if bytes.getD (i + 1) 0 = 85 then
        props.Author.Username.data ++ btAux bytes props (i + 2) rest
      else if bytes.getD (i + 1) 0 = 84 then
        props.Author.Discriminator.data ++ btAux bytes props (i + 2) rest
      else if bytes.getD (i + 1) 0 = 67 then
        (formatInt16 props.Author.AccentColor).data ++ btAux bytes props (i + 2) rest
      else if bytes.getD (i + 1) 0 = 78 then
        (if props.Author.Nickname ≠ "" then props.Author.Nickname.data
         else props.Author.Username.data) ++ btAux bytes props (i + 2) rest
      else c :: btAux bytes props (i + 1) (c2 :: rest)
    else c :: btAux bytes props (i + 1) (c2 :: rest)

/-- buildTemplate embeds buildTemplate from src/lib/rules.go: it expands the
caret directives of a rule template from the author props. -/
def buildTemplate (template : String) (props : Props) : String :=
  String.mk (btAux (strBytes template) props 0 template.data)

/-- Character class [0-9;] of the ansiRegex parameter bytes. -/
def isAnsiParam (c : Char) : Bool :=
  (decide ('0' ≤ c) && decide (c ≤ '9')) || c == ';'

/-- tryAnsi l: given the characters after an ESC, if they begin with a
bracket, then [0-9;]*, then m (the body of ansiRegex), returns the remainder
after the match, else none.  The class [0-9;] excludes m, so the greedy run
is forced and the match at a position is unique. -/
def tryAnsi : List Char → Option (List Char)
  | '[' :: rest =>
    match rest.dropWhile isAnsiParam with
    | 'm' :: tail => some tail
    | _ => none
  | _ => none

/-- stripA: one left-to-right pass deleting every ansiRegex match, resuming
after each match, which is Go ansiRegex.ReplaceAllString(s, "").  The fuel
argument only bounds the recursion and is instantiated with the length. -/
def stripA : Nat → List Char → List Char
  | 0, l => l
  | _ + 1, [] => []
  | f + 1, c :: rest =>
    if c = '\x1b' then
      match tryAnsi rest with
      | some rest2 => stripA f rest2
      | none => c :: stripA f rest
    else c :: stripA f rest

/-- stripAnsi s embeds ansiRegex.ReplaceAllString(s, "") from
src/lib/rules.go (ansiRegex is ESC, bracket, [0-9;]*, m). -/
def stripAnsi (s : String) : String :=
  String.mk (stripA s.data.length s.data)

/-- hasAnsiAux l: whether an ansiRegex match starts anywhere in l. -/
def hasAnsiAux : List Char → Bool
  | [] => false
  | c :: rest => ((c == '\x1b') && (tryAnsi rest).isSome) || hasAnsiAux rest

/-- hasAnsi s: whether s contains an ANSI escape sequence. -/
def hasAnsi (s : String) : Bool := hasAnsiAux s.data

/-- normalizeNewlines embeds strings.ReplaceAll(input, newline, space) from
ApplyRule in src/lib/rules.go. -/
def normalizeNewlines (s : String) : String :=
  String.mk (s.data.map fun c => if c = '\n' then ' ' else c)

/-- ApplyRule embeds ApplyRule from src/lib/rules.go: newlines of the input
become spaces; if the pattern matches, the replacement is computed from the
raw template (no props) or from the built template (with props); otherwise
the empty string is returned. -/
def ApplyRule (rule : Rule) (props : Option Props) (input : String) : String :=
  if rule.Match.matchString (normalizeNewlines input) then
    match props with
    | none => rule.Match.replaceAllString (normalizeNewlines input) rule.Template
    | some p =>
      rule.Match.replaceAllString (normalizeNewlines input) (buildTemplate rule.Template p)
  else ""

/-- ApplyRules embeds ApplyRules from src/lib/rules.go: the first rule whose
ApplyRule result is non-empty wins, and that result is ANSI-stripped before
being returned; if every rule yields the empty string, so does ApplyRules. -/
def ApplyRules : List Rule → Option Props → String → String
  | [], _, _ => ""
  | rule :: rest, props, input =>
    if ApplyRule rule props input = "" then ApplyRules rest props input
    else stripAnsi (ApplyRule rule props input)

/-- isWordChar c: the [a-zA-Z0-9_] class of mentionRegex. -/
def isWordChar (c : Char) : Bool :=
  (decide ('a' ≤ c) && decide (c ≤ 'z')) ||
  (decide ('A' ≤ c) && decide (c ≤ 'Z')) ||
  (decide ('0' ≤ c) && decide (c ≤ '9')) || c == '_'

/-- lookupUser embeds Go map indexing userMap[nickname]; the user map is
carried as an association list with unique keys. -/
def lookupUser (um : List (String × String)) (k : String) : Option String :=
  (um.find? fun p => p.fst == k).map Prod.snd

/-- mentionAux: the left-to-right scan of
mentionRegex.ReplaceAllStringFunc from ApplyUserTags: each token made of an
at sign followed by a nonempty [a-zA-Z0-9_]+ run is replaced by the mention
construct for the mapped identifier when the bare word is in the user map,
else kept; other characters are copied.  Fuel is the input length. -/
def mentionAux (um : List (String × String)) : Nat → List Char → List Char
  | 0, l => l
  | _ + 1, [] => []
  | f + 1, c :: rest =>
    if c = '@' then
      match rest.takeWhile isWordChar with
      | [] => c :: mentionAux um f rest
      | w =>
        (match lookupUser um (String.mk w) with
         | some id => '<' :: '@' :: (id.data ++ ['>'])
         | none => c :: w) ++ mentionAux um f (rest.dropWhile isWordChar)
    else c :: mentionAux um f rest

/-- ApplyUserTags embeds ApplyUserTags from src/lib/rules.go, including the
explicit fast path returning the input unchanged for an empty user map. -/
def ApplyUserTags (input : String) (userMap : List (String × String)) : String :=
  if userMap.isEmpty then input
  else String.mk (mentionAux userMap input.data.length input.data)

/-- specMentionScan follows the spec's description of mention resolution
(section 4.4): scan the line left to right for tokens of an at sign followed
by one or more ASCII letters, digits or underscores; a token whose bare word
is a key of the directory is replaced by the mention construct for that
key's identifier, a token whose word is absent is left unchanged, and every
character outside a token is copied verbatim.  It is the spec-side
definition that the code's ApplyUserTags is compared against. -/
def specMentionScan (um : List (String × String)) : List Char → List Char
  | [] => []
  | c :: rest =>
    if c = '@' then
      match rest.takeWhile isWordChar with
      | [] => c :: specMentionScan um rest
      | w =>
        (match lookupUser um (String.mk w) with
         | some id => '<' :: '@' :: (id.data ++ ['>'])
         | none => c :: w) ++ specMentionScan um (rest.dropWhile isWordChar)
    else c :: specMentionScan um rest
termination_by l => l.length
decreasing_by
  all_goals simp only [List.length_cons]
  all_goals first
    | exact Nat.lt_succ_of_le ((List.dropWhile_sublist isWordChar).length_le)
    | omega

/-- specTemplateScan follows the spec's description of template scanning
(section 4.3): rune-by-rune with a one-rune lookahead — a double caret
escapes to one caret, a recognized directive consumes two runes, a trailing
or unrecognized caret is copied literally — with the directive values the
code assigns.  It is the spec-side definition that buildTemplate's
byte-indexed lookahead is compared against. -/
def specTemplateScan (props : Props) : List Char → List Char
  | [] => []
  | [c] => [c]
  | c :: c2 :: rest =>
    if c = '^' then
      if c2 = '^' then '^' :: specTemplateScan props rest
      else if c2 = 'U' then props.Author.Username.data ++ specTemplateScan props rest
      else if c2 = 'T' then props.Author.Discriminator.data ++ specTemplateScan props rest
      else if c2 = 'C' then
        (formatInt16 props.Author.AccentColor).data ++ specTemplateScan props rest
      else if c2 = 'N' then
        (if props.Author.Nickname ≠ "" then props.Author.Nickname.data
         else props.Author.Username.data) ++ specTemplateScan props rest
      else c :: specTemplateScan props (c2 :: rest)
    else c :: specTemplateScan props (c2 :: rest)

/-- allAscii s: every character of s is a single UTF-8 byte, so buildTemplate's
rune counter and its byte lookahead index agree. -/
def allAscii (s : String) : Bool :=
  s.data.all fun c => decide (c.toNat < 128)

/-- Modelled from the spec: the spec's AuthorContext (section 3) additionally
carries an optional globalDisplayName, a field absent from the code's Author
struct. -/
structure SpecAuthor where
  username : String
  nickname : String
  globalDisplayName : String
  discriminator : String
  accentColor : Int

/-- Modelled from the spec: the resolution chain the spec's directive table
gives for the N directive — nickname if non-empty, else globalDisplayName if
non-empty, else username. -/
def specResolveN (a : SpecAuthor) : String :=
  if a.nickname ≠ "" then a.nickname
  else if a.globalDisplayName ≠ "" then a.globalDisplayName
  else a.username

/-- Projection of the spec's author context onto the code's Author struct,
which has no globalDisplayName field (messageCreate fills only Username,
Nickname, Discriminator and AccentColor). -/
def SpecAuthor.toAuthor (a : SpecAuthor) : Author :=
  { Username := a.username, Nickname := a.nickname,
    Discriminator := a.discriminator, AccentColor := a.accentColor }

/-- btAuxChecked: btAux with every byte access going through List.get?,
returning none if a lookahead index were ever out of range. -/
def btAuxChecked (bytes : List Nat) (props : Props) : Nat → List Char → Option (List Char)
  | _, [] => some []
  | i, [c] =>
    if c = '^' ∧ i + 1 < bytes.length then
      match bytes.get? (i + 1) with
      | none => none
      | some b =>
        if b = 94 then some ['^']
        else if b = 85 then some props.Author.Username.data
        else if b = 84 then some props.Author.Discriminator.data
        else if b = 67 then some (formatInt16 props.Author.AccentColor).data
        else if b = 78 then
          some (if props.Author.Nickname ≠ "" then props.Author.Nickname.data
                else props.Author.Username.data)
        else some [c]
    else some [c]
  | i, c :: c2 :: rest =>
    if c = '^' ∧ i + 1 < bytes.length then
      match bytes.get? (i + 1) with
      | none => none
      | some b =>
        if b = 94 then
          (btAuxChecked bytes props (i + 2) rest).map (fun t => '^' :: t)
        else if b = 85 then
          (btAuxChecked bytes props (i + 2) rest).map
            (fun t => props.Author.Username.data ++ t)
        else if b = 84 then
          (btAuxChecked bytes props (i + 2) rest).map
            (fun t => props.Author.Discriminator.data ++ t)
        else if b = 67 then
          (btAuxChecked bytes props (i + 2) rest).map
            (fun t => (formatInt16 props.Author.AccentColor).data ++ t)
        else if b = 78 then
          (btAuxChecked bytes props (i + 2) rest).map
            (fun t => (if props.Author.Nickname ≠ "" then props.Author.Nickname.data
                       else props.Author.Username.data) ++ t)
        else
          (btAuxChecked bytes props (i + 1) (c2 :: rest)).map (fun t => c :: t)
    else (btAuxChecked bytes props (i + 1) (c2 :: rest)).map (fun t => c :: t)

/-- buildTemplateChecked: buildTemplate with checked byte accesses. -/
def buildTemplateChecked (template : String) (props : Props) : Option String :=
  (btAuxChecked (strBytes template) props 0 template.data).map String.mk

/-- anchoredLit pat: the Regexp of a Go pattern that anchors the literal pat
on both sides.  MatchString holds exactly on pat itself, and
ReplaceAllString substitutes the template for the whole string on a match
and is the identity otherwise (faithful for templates without dollar group
references, the only ones used here). -/
def anchoredLit (pat : String) : Regexp :=
  { matchString := fun s => s == pat,
    replaceAllString := fun s templ => if s == pat then templ else s }

/-- author0: the author of TestBuildTemplate (rules_test source). -/
def author0 : Author :=
  { Username := "Bob^T", Nickname := "bobby", Discriminator := "1337",
    AccentColor := 0xFFFF00 }

/-- props0 wraps author0. -/
def props0 : Props := { Author := author0 }

/-- ruleEmptyRepl: a rule that matches the input "a" and whose computed
replacement is the empty string, as the Go rule with anchored pattern a and
template "" produces (an empty replacement also arises from a loader-valid
rule via an empty capture group reference in the template). -/
def ruleEmptyRepl : Rule := { Match := anchoredLit "a", Template := "" }

/-- ruleB: a rule that matches the input "a" and replaces it by b. -/
def ruleB : Rule := { Match := anchoredLit "a", Template := "b" }

/-- ruleAnsiTemplate: a rule matching the input "a" whose template carries an
ANSI color escape sequence. -/
def ruleAnsiTemplate : Rule :=
  { Match := anchoredLit "a", Template := "x\x1b[31m" }

/-- specAuthorG: a spec author context with empty nickname, non-empty
globalDisplayName G and username u. -/
def specAuthorG : SpecAuthor :=
  { username := "u", nickname := "", globalDisplayName := "G",
    discriminator := "1337", accentColor := 0 }

/-- Characters with equal code points are equal. -/
theorem charToNat_inj {c d : Char} (h : c.toNat = d.toNat) : c = d := by
  apply Char.ext
  exact UInt32.toNat.inj h

/-- Unequal characters have unequal code points. -/
theorem charToNat_ne {c d : Char} (h : c ≠ d) : c.toNat ≠ d.toNat :=
  fun hh => h (charToNat_inj hh)

/-- Dropping one more element after a drop that produced a cons. -/
theorem drop_succ_of_drop_cons {α : Type} {L : List α} {i : Nat} {c : α}
    {rest : List α} (h : L.drop i = c :: rest) : L.drop (i + 1) = rest := by
  have h2 : (L.drop i).tail = rest := by rw [h]; rfl
  rw [← List.tail_drop]
  exact h2

/-- The byte the lookahead reads under an all-ASCII byte map is the code
point of the character at that rune position. -/
theorem getD_map_toNat : ∀ (L : List Char) (i : Nat) {c : Char}
    {rest : List Char}, L.drop i = c :: rest →
    (L.map Char.toNat).getD i 0 = c.toNat := by
  intro L
  induction L with
  | nil => intro i c rest h; simp at h
  | cons x L ih =>
    intro i c rest h
    cases i with
    | zero =>
      rw [List.drop_zero] at h
      injection h with h1 h2
      simp [h1]
    | succ i =>
      rw [List.drop_succ_cons] at h
      simpa using ih i h

/-- For ASCII characters the UTF-8 encoding is the single code-point byte. -/
theorem utf8Bytes_ascii {c : Char} (h : c.toNat < 128) :
    utf8Bytes c = [c.toNat] := by
  simp [utf8Bytes, h]

/-- For all-ASCII character lists the UTF-8 encoding is bytewise toNat. -/
theorem utf8Encode_ascii : ∀ (l : List Char), (∀ c ∈ l, c.toNat < 128) →
    utf8Encode l = l.map Char.toNat := by
  intro l
  induction l with
  | nil => intro _; rfl
  | cons c rest ih =>
    intro h
    have hc : c.toNat < 128 := h c (List.mem_cons_self _ _)
    have hrest := ih fun d hd => h d (List.mem_cons_of_mem _ hd)
    simp only [utf8Encode, List.foldr] at hrest ⊢
    rw [utf8Bytes_ascii hc, hrest]
    rfl

/-- Core equivalence: on an all-ASCII template the byte-lookahead loop of
buildTemplate computes exactly the spec's rune-lookahead scan. -/
theorem btAux_ascii (props : Props) (L : List Char) :
    ∀ (n i : Nat) (l : List Char), l.length ≤ n → L.drop i = l →
      btAux (L.map Char.toNat) props i l = specTemplateScan props l := by
  intro n
  induction n with
  | zero =>
    intro i l hlen hdrop
    have hl : l = [] := List.eq_nil_of_length_eq_zero (Nat.le_zero.mp hlen)
    subst hl; rfl
  | succ n ih =>
    intro i l hlen hdrop
    cases l with
    | nil => rfl
    | cons c ltail =>
      cases ltail with
      | nil =>
        have hrest : L.drop (i + 1) = [] := drop_succ_of_drop_cons hdrop
        have hge : L.length ≤ i + 1 := List.drop_eq_nil_iff.mp hrest
        have hnot : ¬ (c = '^' ∧ i + 1 < (L.map Char.toNat).length) := by
          intro hcontra
          have h2 := hcontra.2
          rw [List.length_map] at h2
          omega
        simp only [btAux, specTemplateScan]
        rw [if_neg hnot]
      | cons c2 rest2 =>
        have hdrop1 : L.drop (i + 1) = c2 :: rest2 := drop_succ_of_drop_cons hdrop
        have hdrop2 : L.drop (i + 2) = rest2 := drop_succ_of_drop_cons hdrop1
        have hlt : i + 1 < L.length := by
          by_contra hcon
          have hnil : L.drop (i + 1) = [] := List.drop_eq_nil_iff.mpr (by omega)
          rw [hdrop1] at hnil
          exact absurd hnil (by simp)
        have hb : (L.map Char.toNat).getD (i + 1) 0 = c2.toNat :=
          getD_map_toNat L (i + 1) hdrop1
        have hlen2 : rest2.length + 2 ≤ n + 1 := by
          simpa [List.length_cons] using hlen
        have ih2 : btAux (L.map Char.toNat) props (i + 2) rest2 =
            specTemplateScan props rest2 :=
          ih (i + 2) rest2 (by omega) hdrop2
        have ih1 : btAux (L.map Char.toNat) props (i + 1) (c2 :: rest2) =
            specTemplateScan props (c2 :: rest2) :=
          ih (i + 1) (c2 :: rest2) (by simp [List.length_cons]; omega) hdrop1
        have e94 : ('^' : Char).toNat = 94 := by decide
        have e85 : ('U' : Char).toNat = 85 := by decide
        have e84 : ('T' : Char).toNat = 84 := by decide
        have e67 : ('C' : Char).toNat = 67 := by decide
        have e78 : ('N' : Char).toNat = 78 := by decide
        by_cases hc : c = '^'
        · subst hc
          have hlt2 : i + 1 < (L.map Char.toNat).length := by
            rw [List.length_map]; exact hlt
          simp only [btAux, specTemplateScan, eq_self_iff_true, true_and,
            if_true]
          rw [if_pos hlt2]
          simp only [hb]
          by_cases h94 : c2 = '^'
          · subst h94
            rw [if_pos e94, if_pos rfl, ih2]
          · have n94 : ¬ c2.toNat = 94 :=
              fun hh => h94 (charToNat_inj (hh.trans e94.symm))
            rw [if_neg n94, if_neg h94]
            by_cases h85 : c2 = 'U'
            · subst h85
              rw [if_pos e85, if_pos rfl, ih2]
            · have n85 : ¬ c2.toNat = 85 :=
                fun hh => h85 (charToNat_inj (hh.trans e85.symm))
              rw [if_neg n85, if_neg h85]
              by_cases h84 : c2 = 'T'
              · subst h84
                rw [if_pos e84, if_pos rfl, ih2]
              · have n84 : ¬ c2.toNat = 84 :=
                  fun hh => h84 (charToNat_inj (hh.trans e84.symm))
                rw [if_neg n84, if_neg h84]
                by_cases h67 : c2 = 'C'
                · subst h67
                  rw [if_pos e67, if_pos rfl, ih2]
                · have n67 : ¬ c2.toNat = 67 :=
                    fun hh => h67 (charToNat_inj (hh.trans e67.symm))
                  rw [if_neg n67, if_neg h67]
                  by_cases h78 : c2 = 'N'
                  · subst h78
                    rw [if_pos e78, if_pos rfl, ih2]
                  · have n78 : ¬ c2.toNat = 78 :=
                      fun hh => h78 (charToNat_inj (hh.trans e78.symm))
                    rw [if_neg n78, if_neg h78, ih1]
        · have hguard : ¬ (c = '^' ∧ i + 1 < (L.map Char.toNat).length) :=
            fun hh => hc hh.1
          simp only [btAux, specTemplateScan]
          rw [if_neg hguard, if_neg hc, ih1]

/-- On an all-ASCII template, buildTemplate is the spec's template scan. -/
theorem buildTemplate_ascii (template : String) (props : Props)
    (h : allAscii template = true) :
    buildTemplate template props =
      String.mk (specTemplateScan props template.data) := by
  have hA : ∀ c ∈ template.data, c.toNat < 128 := by
    intro c hc
    have := (List.all_eq_true.mp h) c hc
    exact of_decide_eq_true this
  have hbytes : strBytes template = template.data.map Char.toNat := by
    simp only [strBytes]
    exact utf8Encode_ascii template.data hA
  simp only [buildTemplate, hbytes]
  rw [btAux_ascii props template.data template.data.length 0 template.data
    (Nat.le_refl _) (List.drop_zero _)]

/-- An in-range optional lookup yields the default-read value. -/
theorem get?_eq_some_getD (bs : List Nat) (j : Nat) (h : j < bs.length) :
    bs.get? j = some (bs.getD j 0) := by
  rw [List.getD_eq_get?]
  cases hg : bs.get? j with
  | none =>
    have hle : bs.length ≤ j := List.get?_eq_none.mp hg
    omega
  | some b => rfl

/-- The checked byte accesses of btAuxChecked always succeed: it computes
some of btAux's result on every input. -/
theorem btAuxChecked_eq (bytes : List Nat) (props : Props) :
    ∀ (n i : Nat) (l : List Char), l.length ≤ n →
      btAuxChecked bytes props i l = some (btAux bytes props i l) := by
  intro n
  induction n with
  | zero =>
    intro i l hlen
    have hl : l = [] := List.eq_nil_of_length_eq_zero (Nat.le_zero.mp hlen)
    subst hl; rfl
  | succ n ih =>
    intro i l hlen
    cases l with
    | nil => rfl
    | cons c ltail =>
      cases ltail with
      | nil =>
        by_cases hg : c = '^' ∧ i + 1 < bytes.length
        · simp only [btAuxChecked, btAux]
          rw [if_pos hg, if_pos hg]
          simp only [get?_eq_some_getD bytes (i + 1) hg.2]
          split_ifs <;> rfl
        · simp only [btAuxChecked, btAux]
          rw [if_neg hg, if_neg hg]
      | cons c2 rest2 =>
        have hlen2 : rest2.length + 2 ≤ n + 1 := by
          simpa [List.length_cons] using hlen
        have ihrest : btAuxChecked bytes props (i + 2) rest2 =
            some (btAux bytes props (i + 2) rest2) :=
          ih (i + 2) rest2 (by omega)
        have ihcons : btAuxChecked bytes props (i + 1) (c2 :: rest2) =
            some (btAux bytes props (i + 1) (c2 :: rest2)) :=
          ih (i + 1) (c2 :: rest2) (by simp [List.length_cons]; omega)
        by_cases hg : c = '^' ∧ i + 1 < bytes.length
        · simp only [btAuxChecked, btAux]
          rw [if_pos hg, if_pos hg]
          simp only [get?_eq_some_getD bytes (i + 1) hg.2]
          split_ifs <;>
            first
              | (rw [ihrest]; rfl)
              | (rw [ihcons]; rfl)
        · simp only [btAuxChecked, btAux]
          rw [if_neg hg, if_neg hg, ihcons]
          rfl

/-- A string with no ANSI escape sequence is a fixed point of the stripping
pass, for any fuel. -/
theorem stripA_id_of_no_match : ∀ (f : Nat) (l : List Char),
    hasAnsiAux l = false → stripA f l = l := by
  intro f
  induction f with
  | zero => intro l _; rfl
  | succ f ih =>
    intro l h
    cases l with
    | nil => rfl
    | cons c rest =>
      simp only [hasAnsiAux, Bool.or_eq_false_iff] at h
      obtain ⟨h1, h2⟩ := h
      by_cases hc : c = '\x1b'
      · subst hc
        have hnone : tryAnsi rest = none := by
          cases htry : tryAnsi rest with
          | none => rfl
          | some x => rw [htry] at h1; simp at h1
        simp only [stripA, eq_self_iff_true, if_true, hnone]
        rw [ih rest h2]
      · simp only [stripA]
        rw [if_neg hc, ih rest h2]

/-- C1 (amended): ApplyRules, with newlines of the input replaced by spaces,
returns the ANSI-stripped replacement of the first rule in order whose
pattern matches and whose computed replacement is non-empty; matching rules
whose replacement is empty are skipped, and later rules are not consulted
once such a rule is found. -/
theorem c1_first_nonempty_match_wins (pre rest : List Rule) (r : Rule)
    (props : Option Props) (input : String)
    (hpre : ∀ r2 ∈ pre, ApplyRule r2 props input = "")
    (hr : ApplyRule r props input ≠ "") :
    ApplyRules (pre ++ r :: rest) props input =
      stripAnsi (ApplyRule r props input) := by
  induction pre with
  | nil =>
    simp only [List.nil_append, ApplyRules]
    rw [if_neg hr]
  | cons p pre ih =>
    have hp : ApplyRule p props input = "" := hpre p (List.mem_cons_self _ _)
    simp only [List.cons_append, ApplyRules, hp, eq_self_iff_true, if_true]
    exact ih fun r2 h2 => hpre r2 (List.mem_cons_of_mem _ h2)

/-- C1 witness: with a first rule that matches "a" but computes an empty
replacement and a second rule replacing "a" by "b", ApplyRules returns the
second rule's stripped replacement. -/
theorem c1_first_nonempty_match_wins_witness :
    (∀ r2 ∈ [ruleEmptyRepl], ApplyRule r2 none "a" = "") ∧
    ApplyRule ruleB none "a" ≠ "" ∧
    ApplyRules ([ruleEmptyRepl] ++ ruleB :: []) none "a" =
      stripAnsi (ApplyRule ruleB none "a") :=
  ⟨by decide, by decide,
    c1_first_nonempty_match_wins [ruleEmptyRepl] [] ruleB none "a"
      (by decide) (by decide)⟩

/-- C1 counterexample: the first rule of the sequence matches the normalized
input "a", yet its replacement (the empty string) is not what ApplyRules
returns — the later rule decides the result, so the claim that the result is
determined by the first rule whose pattern matches is false. -/
theorem c1_empty_replacement_skipped_counterexample :
    (anchoredLit "a").matchString (normalizeNewlines "a") = true ∧
    ApplyRule ruleEmptyRepl none "a" = "" ∧
    ApplyRules [ruleEmptyRepl, ruleB] none "a" = "b" ∧
    ("b" : String) ≠ "" := by decide

/-- C2 (amended): ApplyRules applies the ANSI strip exactly once, to the
first non-empty rule result, in both relay directions: the stripping happens
whether or not an author context is supplied, so chat-to-process
transformations are stripped too. -/
theorem c2_strip_after_match_any_direction (rule : Rule)
    (props : Option Props) (input : String)
    (h : ApplyRule rule props input ≠ "") :
    ApplyRules [rule] props input = stripAnsi (ApplyRule rule props input) := by
  simp only [ApplyRules]
  rw [if_neg h]

/-- C2 witness: a chat-to-process application (author context present) whose
matched replacement is non-empty is returned ANSI-stripped. -/
theorem c2_strip_after_match_any_direction_witness :
    ApplyRule ruleAnsiTemplate (some props0) "a" ≠ "" ∧
    ApplyRules [ruleAnsiTemplate] (some props0) "a" =
      stripAnsi (ApplyRule ruleAnsiTemplate (some props0) "a") :=
  ⟨by decide,
    c2_strip_after_match_any_direction ruleAnsiTemplate (some props0) "a"
      (by decide)⟩

/-- C2 counterexample: in the chat-to-process direction (author context
present) the matched replacement carries an ANSI escape, and ApplyRules
returns it with the escape stripped — so the claim that ApplyRules performs
no ANSI stripping in that direction is false. -/
theorem c2_strip_in_chat_to_process_counterexample :
    ApplyRule ruleAnsiTemplate (some props0) "a" = "x\x1b[31m" ∧
    ApplyRules [ruleAnsiTemplate] (some props0) "a" = "x" ∧
    ("x" : String) ≠ "x\x1b[31m" := by decide

/-- C3 (amended): the N directive of buildTemplate expands to the nickname
if it is non-empty, else to the username; the code's author context has no
globalDisplayName field, so no such intermediate fallback exists.  Setting
only the username yields the username, and a non-empty nickname overrides
the username. -/
theorem c3_directive_n_resolution (a : Author) :
    buildTemplate "^N" { Author := a } =
      (if a.Nickname = "" then a.Username else a.Nickname) := by
  rw [buildTemplate_ascii "^N" { Author := a } (by decide)]
  have hscan : specTemplateScan { Author := a } (("^N" : String).data) =
      (if a.Nickname ≠ "" then a.Nickname.data else a.Username.data) ++ [] :=
    rfl
  rw [hscan, List.append_nil]
  by_cases h : a.Nickname = ""
  · rw [if_neg (fun hh => hh h), if_pos h]
  · rw [if_pos h, if_neg h]

/-- C3 counterexample: for an author context with empty nickname, non-empty
globalDisplayName G and username u, the spec's resolution chain yields G
while buildTemplate (on the projection of that context onto the code's
Author struct, which carries no globalDisplayName) yields u — the claimed
globalDisplayName fallback does not exist in the code. -/
theorem c3_global_display_name_counterexample :
    specResolveN specAuthorG = "G" ∧
    buildTemplate "^N" { Author := specAuthorG.toAuthor } = "u" ∧
    ("G" : String) ≠ "u" := by decide

/-- C4: ApplyRules returns the empty string (suppress) whenever no rule's
pattern matches the input with newlines replaced by spaces; with an empty
rule sequence the hypothesis is vacuous, so the result is always empty. -/
theorem c4_no_match_suppresses (rules : List Rule) (props : Option Props)
    (input : String)
    (h : ∀ r ∈ rules, r.Match.matchString (normalizeNewlines input) = false) :
    ApplyRules rules props input = "" := by
  induction rules with
  | nil => rfl
  | cons r rest ih =>
    have hr : ApplyRule r props input = "" := by
      simp [ApplyRule, h r (List.mem_cons_self _ _)]
    simp only [ApplyRules, hr, eq_self_iff_true, if_true]
    exact ih fun r2 h2 => h r2 (List.mem_cons_of_mem _ h2)

/-- C4 witness: the pattern anchored on "a" does not match "x", so a
one-rule sequence suppresses the line, and the empty rule sequence
suppresses it as well. -/
theorem c4_no_match_suppresses_witness :
    (∀ r ∈ [ruleB], r.Match.matchString (normalizeNewlines "x") = false) ∧
    ApplyRules [ruleB] none "x" = "" ∧
    ApplyRules [] none "x" = "" :=
  ⟨by decide, c4_no_match_suppresses [ruleB] none "x" (by decide),
    c4_no_match_suppresses [] none "x" (by decide)⟩

/-- C5: buildTemplate expands the template from the end-to-end scenario to
exactly the expected string — the caret-T inside the inserted username is
not re-scanned, and the C directive formats the accent color as lowercase
hexadecimal without prefix. -/
theorem c5_end_to_end_template :
    buildTemplate "<^U#^T> ^^ ^C ^N" props0 = "<Bob^T#1337> ^ ffff00 bobby" := by
  decide

/-- C6 (amended): stripping the example yields "red", and stripping twice
equals stripping once whenever the once-stripped string contains no ANSI
escape sequence; full idempotence fails because a removal can splice the
surrounding characters into a new escape sequence. -/
theorem c6_strip_idempotent_when_clean :
    stripAnsi "\x1b[31mred\x1b[0m" = "red" ∧
    ∀ s : String, hasAnsi (stripAnsi s) = false →
      stripAnsi (stripAnsi s) = stripAnsi s := by
  constructor
  · decide
  · intro s h
    have h2 : stripA (stripAnsi s).data.length (stripAnsi s).data =
        (stripAnsi s).data :=
      stripA_id_of_no_match _ _ h
    show String.mk (stripA (stripAnsi s).data.length (stripAnsi s).data) =
      stripAnsi s
    rw [h2]

/-- C6 witness: the once-stripped example contains no escape, so stripping
it again changes nothing. -/
theorem c6_strip_idempotent_when_clean_witness :
    hasAnsi (stripAnsi "\x1b[31mred\x1b[0m") = false ∧
    stripAnsi (stripAnsi "\x1b[31mred\x1b[0m") =
      stripAnsi "\x1b[31mred\x1b[0m" :=
  ⟨by decide, c6_strip_idempotent_when_clean.2 "\x1b[31mred\x1b[0m" (by decide)⟩

/-- C6 counterexample: deleting the embedded escape of this input splices a
leading ESC together with a following bracket sequence into a new escape, so
stripping twice differs from stripping once — the stripping operation is not
idempotent. -/
theorem c6_strip_not_idempotent_counterexample :
    stripAnsi "\x1b\x1b[0m[0m" = "\x1b[0m" ∧
    stripAnsi (stripAnsi "\x1b\x1b[0m[0m") = "" ∧
    stripAnsi (stripAnsi "\x1b\x1b[0m[0m") ≠ stripAnsi "\x1b\x1b[0m[0m" := by
  decide

/-- C7 (amended): on templates whose characters are all ASCII, buildTemplate
scans exactly as the spec describes — a double caret yields one caret, a
trailing caret and an unrecognized caret pair are copied literally, and
characters outside directives are copied verbatim (specTemplateScan); on
templates with multi-byte characters the byte-indexed lookahead can disagree
with the rune being scanned. -/
theorem c7_ascii_scan_matches_spec (template : String) (props : Props)
    (h : allAscii template = true) :
    buildTemplate template props =
      String.mk (specTemplateScan props template.data) :=
  buildTemplate_ascii template props h

/-- C7 witness: the double-caret template is ASCII and collapses to one
caret. -/
theorem c7_ascii_scan_matches_spec_witness :
    allAscii "^^" = true ∧
    buildTemplate "^^" props0 =
      String.mk (specTemplateScan props0 (("^^" : String).data)) ∧
    buildTemplate "^^" props0 = "^" :=
  ⟨by decide, c7_ascii_scan_matches_spec "^^" props0 (by decide), by decide⟩

/-- C7 counterexample: in a template whose caret pair follows a three-byte
character, the byte lookahead reads a continuation byte and then a stale
caret byte, so the double caret is kept verbatim instead of collapsing to a
single caret as claimed for every template. -/
theorem c7_multibyte_caret_counterexample :
    buildTemplate "日^^" props0 = "日^^" ∧
    String.mk (specTemplateScan props0 (("日^^" : String).data)) = "日^" ∧
    ("日^^" : String) ≠ "日^" := by decide

/-- A mention scan with fuel at least the input length computes the spec's
mention resolution. -/
theorem mentionAux_eq_spec (um : List (String × String)) :
    ∀ (f : Nat) (l : List Char), l.length ≤ f →
      mentionAux um f l = specMentionScan um l := by
  intro f
  induction f with
  | zero =>
    intro l hlen
    have hl : l = [] := List.eq_nil_of_length_eq_zero (Nat.le_zero.mp hlen)
    subst hl
    simp [mentionAux, specMentionScan]
  | succ f ih =>
    intro l hlen
    cases l with
    | nil => simp [mentionAux, specMentionScan]
    | cons c rest =>
      have hrest : rest.length ≤ f := by
        simp only [List.length_cons] at hlen; omega
      have hdw : (rest.dropWhile isWordChar).length ≤ f :=
        Nat.le_trans (List.dropWhile_sublist isWordChar).length_le hrest
      simp only [mentionAux, specMentionScan]
      by_cases hc : c = '@'
      · rw [if_pos hc, if_pos hc]
        cases htw : rest.takeWhile isWordChar with
        | nil =>
          simp only [htw]
          rw [ih rest hrest]
        | cons w0 wrest =>
          simp only [htw]
          rw [ih (rest.dropWhile isWordChar) hdw]
      · rw [if_neg hc, if_neg hc, ih rest hrest]

/-- The empty directory resolves no token, so the spec's mention scan is the
identity. -/
theorem specMentionScan_empty : ∀ (n : Nat) (l : List Char), l.length ≤ n →
    specMentionScan [] l = l := by
  intro n
  induction n with
  | zero =>
    intro l hlen
    have hl : l = [] := List.eq_nil_of_length_eq_zero (Nat.le_zero.mp hlen)
    subst hl
    simp [specMentionScan]
  | succ n ih =>
    intro l hlen
    cases l with
    | nil => simp [specMentionScan]
    | cons c rest =>
      have hrest : rest.length ≤ n := by
        simp only [List.length_cons] at hlen; omega
      have hdw : (rest.dropWhile isWordChar).length ≤ n :=
        Nat.le_trans (List.dropWhile_sublist isWordChar).length_le hrest
      simp only [specMentionScan]
      by_cases hc : c = '@'
      · rw [if_pos hc]
        cases htw : rest.takeWhile isWordChar with
        | nil =>
          simp only [htw]
          rw [ih rest hrest]
        | cons w0 wrest =>
          simp only [htw]
          have hlk : lookupUser [] (String.mk (w0 :: wrest)) = none := rfl
          simp only [hlk]
          rw [ih (rest.dropWhile isWordChar) hdw]
          have hsplit : (w0 :: wrest) ++ rest.dropWhile isWordChar = rest := by
            rw [← htw]
            exact List.takeWhile_append_dropWhile isWordChar rest
          rw [List.cons_append, hsplit]
      · rw [if_neg hc, ih rest hrest]

/-- ApplyUserTags computes the spec's mention resolution on every input and
directory, including through the empty-directory fast path. -/
theorem applyUserTags_eq_spec (input : String) (um : List (String × String)) :
    ApplyUserTags input um = String.mk (specMentionScan um input.data) := by
  by_cases hum : um.isEmpty = true
  · have h0 : um = [] := List.isEmpty_iff.mp hum
    subst h0
    have h1 : ApplyUserTags input [] = input := rfl
    rw [h1, specMentionScan_empty input.data.length input.data (Nat.le_refl _)]
  · have h1 : ApplyUserTags input um =
        String.mk (mentionAux um input.data.length input.data) := by
      simp only [ApplyUserTags]
      rw [if_neg hum]
    rw [h1, mentionAux_eq_spec um input.data.length input.data (Nat.le_refl _)]

/-- C8: for every input line and user directory, ApplyUserTags performs the
spec's per-token mention resolution — each at-word token whose bare word is
a key of the directory is replaced by the mention construct of that key's
identifier, a token whose word is absent is left unchanged, other characters
are copied — as stated by the equivalence with the spec-side scanner; in
particular the two concrete examples hold, and an empty directory returns
any input unmodified. -/
theorem c8_user_tags :
    (∀ (input : String) (userMap : List (String × String)),
      ApplyUserTags input userMap =
        String.mk (specMentionScan userMap input.data)) ∧
    ApplyUserTags "hello @bob" [("bob", "12345")] = "hello <@12345>" ∧
    ApplyUserTags "@carol" [("bob", "12345")] = "@carol" ∧
    ∀ input : String, ApplyUserTags input [] = input :=
  ⟨applyUserTags_eq_spec, by decide, by decide, fun input => rfl⟩

/-- C10: buildTemplate is total and its byte lookahead is always in range:
the checked variant, which fails on any out-of-range access, succeeds and
returns buildTemplate's result on every template and context, including
templates with multi-byte characters. -/
theorem c10_lookahead_safe (template : String) (props : Props) :
    buildTemplateChecked template props = some (buildTemplate template props) := by
  simp only [buildTemplateChecked, buildTemplate]
  rw [btAuxChecked_eq (strBytes template) props template.data.length 0
    template.data (Nat.le_refl _)]
  rfl
